import Mathlib

/-!
# OLE record scanner (`libyara/modules/ole/ole.cpp`)

A shallow embedding of the BIFF record walk of the `ole` module.

* The scanned buffer is a list of bytes; `size` is its length.  Pointers into
  the buffer are natural-number offsets from `data`.
* Every load the C++ code performs is a read of the list at an offset.  A load
  at an offset that is not below the length is the out-of-bounds access the
  `FIXME` above `class OLEFile` warns about: the embedding stops there with
  status `overrun`.
* The three `bool&` out-parameters are a `Flags` value that is passed in and
  returned.
* A `Run` also records the offsets of the bytes that were loaded, in order, and
  the offset of the iterator when execution stopped.
* The host is little-endian (a `uint16_t` field is read straight off the wire),
  `sizeof(OLEXLSRecordHeader) = 4`.
-/

namespace Ole

/-- One `uint8_t`. -/
abbrev Byte := Fin 256

/-! ## Constants -/

/-- Value of `OLEXLSRecordId::Eof`. -/
def OLEXLSRecordId.Eof : Nat := 0x000A
/-- Value of `OLEXLSRecordId::Label`. -/
def OLEXLSRecordId.Label : Nat := 0x0018
/-- Value of `OLEXLSRecordId::FilePass`. -/
def OLEXLSRecordId.FilePass : Nat := 0x002F
/-- Value of `OLEXLSRecordId::BoundSheet`. -/
def OLEXLSRecordId.BoundSheet : Nat := 0x0085
/-- Value of `OLEXLSRecordId::Dconn`. -/
def OLEXLSRecordId.Dconn : Nat := 0x0876
/-- Value of `OLEXLSRecordId::Supbook`. -/
def OLEXLSRecordId.Supbook : Nat := 0x01AE
/-- Value of `OLEXLSRecordId::Formula`. -/
def OLEXLSRecordId.Formula : Nat := 6

/-- Value of `BuiltinNames::Invalid` (the enumeration has underlying type `int`). -/
def BuiltinNames.Invalid : Int := 0
/-- Value of `BuiltinNames::AutoOpen`. -/
def BuiltinNames.AutoOpen : Int := 1
/-- Value of `BuiltinNames::AutoClose`. -/
def BuiltinNames.AutoClose : Int := 2
/-- Value of `BuiltinNames::Autoactivate`. -/
def BuiltinNames.Autoactivate : Int := 0xA
/-- Value of `BuiltinNames::Autodeactivate`. -/
def BuiltinNames.Autodeactivate : Int := 0xB

/-- The size in bytes of `struct OLEXLSRecordHeader` (two `uint16_t` fields). -/
def sizeofHeader : Nat := 4

/-- Value of `ERROR_SUCCESS`. -/
def ERROR_SUCCESS : Nat := 0

/-! ## Memory reads -/

/-- Load of a `uint16_t` stored at offset `o` (little-endian): `none` when one
of its two bytes lies outside the buffer. -/
def readU16 (data : List Byte) (o : Nat) : Option Nat :=
  match data[o]?, data[o + 1]? with
  | some lo, some hi => some (lo.val + 256 * hi.val)
  | _, _ => none

/-- Conversion of a `char` holding byte `b` to `int` (`char` is signed on the
targets yara is built for; with an unsigned `char` the value would be `b`
itself, and the comparisons with `1` and `2` below come out the same). -/
def charToInt (b : Byte) : Int :=
  if b.val < 128 then (b.val : Int) else (b.val : Int) - 256

/-! ## Results -/

/-- The three `bool&` parameters of `extractOleFields`. -/
structure Flags where
  found_auto_open : Bool
  found_auto_close : Bool
  is_encrypted : Bool
deriving DecidableEq, Repr

/-- How an execution ended: the function returned, it loaded a byte outside
the buffer, or the iteration budget of the embedding ran out (which
`extractOleFields` never does, see `extractOleFields_status_ne_exhausted`). -/
inductive Status
  | returned
  | overrun
  | exhausted
deriving DecidableEq, Repr

/-- An execution: final values of the flags, offsets of the bytes loaded (in
order), offset of the record iterator when execution stopped, and status. -/
structure Run where
  flags : Flags
  reads : List Nat
  cursor : Nat
  status : Status
deriving DecidableEq, Repr

/-- The run `r` preceded by the loads `pre`. -/
def Run.after (pre : List Nat) (r : Run) : Run :=
  { r with reads := pre ++ r.reads }

/-! ## `OLERecordIterator` and `OLEFile` -/

/-- Embedding of `class OLERecordIterator`: `m_data` as an offset from the start of the buffer. -/
structure OLERecordIterator where
  m_data : Nat
deriving DecidableEq, Repr

/-- Load of `(*it)->type`. -/
def OLERecordIterator.type (data : List Byte) (it : OLERecordIterator) : Option Nat :=
  readU16 data it.m_data

/-- Load of `(*it)->size`. -/
def OLERecordIterator.size (data : List Byte) (it : OLERecordIterator) : Option Nat :=
  readU16 data (it.m_data + 2)

/-- Embedding of `operator++`: `m_data += sizeof(OLEXLSRecordHeader) + (**this)->size`. -/
def OLERecordIterator.next (data : List Byte) (it : OLERecordIterator) :
    Option OLERecordIterator :=
  match it.size data with
  | some sz => some ⟨it.m_data + (sizeofHeader + sz)⟩
  | none => none

/-- Embedding of `operator!=`: `other.m_data != m_data`. -/
def OLERecordIterator.ne (it other : OLERecordIterator) : Bool :=
  other.m_data != it.m_data

/-- Embedding of `OLEFile::begin()`. -/
def OLEFile.begin (_data : List Byte) : OLERecordIterator := ⟨0⟩

/-- Embedding of `OLEFile::end()`: `m_data + m_size`. -/
def OLEFile.end_ (data : List Byte) : OLERecordIterator := ⟨0 + data.length⟩

/-! ## `parseLabelHeader` -/

/-- Embedding of `parseLabelHeader(record, found_auto_open, found_auto_close)`,
`record` being the offset of the record header. -/
def parseLabelHeader (data : List Byte) (record : Nat) (f : Flags) : Run :=
  match readU16 data (record + 2) with
  | none => ⟨f, [record + 2, record + 3], record, Status.overrun⟩
  | some size =>
    if size < 16 then
      ⟨f, [record + 2, record + 3], record, Status.returned⟩
    else
      -- record_data = (const char*)(record + 1)
      let record_data := record + sizeofHeader
      match data[record_data]? with
      | none => ⟨f, [record + 2, record + 3, record_data], record, Status.overrun⟩
      | some b0 =>
        if b0.val &&& 0x20 ≠ 0 then
          match data[record_data + 15]? with
          | none =>
            ⟨f, [record + 2, record + 3, record_data, record_data + 15], record,
              Status.overrun⟩
          | some b15 =>
            let name := charToInt b15
            if name = BuiltinNames.AutoOpen then
              ⟨{ f with found_auto_close := true },
                [record + 2, record + 3, record_data, record_data + 15], record,
                Status.returned⟩
            else if name = BuiltinNames.AutoClose then
              ⟨{ f with found_auto_close := true },
                [record + 2, record + 3, record_data, record_data + 15], record,
                Status.returned⟩
            else
              ⟨f, [record + 2, record + 3, record_data, record_data + 15], record,
                Status.returned⟩
        else
          ⟨f, [record + 2, record + 3, record_data], record, Status.returned⟩

/-! ## `extractOleFields` -/

/-- The range-`for` loop of `extractOleFields`, from iterator `it` on, with an
iteration budget. -/
def extractLoop (data : List Byte) : Nat → OLERecordIterator → Flags → Run
  | 0, it, f => ⟨f, [], it.m_data, Status.exhausted⟩
  | fuel + 1, it, f =>
    if it.ne (OLEFile.end_ data) then
      match it.type data with
      | none => ⟨f, [it.m_data, it.m_data + 1], it.m_data, Status.overrun⟩
      | some ty =>
        if ty = OLEXLSRecordId.FilePass then
          ⟨{ f with is_encrypted := true }, [it.m_data, it.m_data + 1], it.m_data,
            Status.returned⟩
        else if ty = OLEXLSRecordId.Label then
          (parseLabelHeader data it.m_data f).after [it.m_data, it.m_data + 1]
        else
          match it.next data with
          | none =>
            ⟨f, [it.m_data, it.m_data + 1, it.m_data + 2, it.m_data + 3], it.m_data,
              Status.overrun⟩
          | some it2 =>
            (extractLoop data fuel it2 f).after
              [it.m_data, it.m_data + 1, it.m_data + 2, it.m_data + 3]
    else
      ⟨f, [], it.m_data, Status.returned⟩

/-- Embedding of `extractOleFields(data, size, found_auto_open, found_auto_close,
is_encrypted)` with `size = data.length`.  Each iteration but the last moves
the iterator forward by at least four bytes, so `data.length + 1` iterations
are never used up. -/
def extractOleFields (data : List Byte) (f : Flags) : Run :=
  extractLoop data (data.length + 1) (OLEFile.begin data) f

/-- The flags `module_load` starts from: all `false`. -/
def Flags.init : Flags := ⟨false, false, false⟩

/-- `static_cast<int>(b)` for a `bool`. -/
def boolToInt (b : Bool) : Int := if b then 1 else 0

/-- What `module_load` did: the value it returned (`none` when it did not
return), the `set_integer` calls it made on the module object, in order, and
the status of the run. -/
structure LoadResult where
  code : Option Nat
  fields : List (String × Int)
  status : Status
deriving DecidableEq, Repr

/-- Embedding of `module_load`.  `module_data` holds the `module_data_size`
bytes behind the `module_data` pointer, `block_data` the `block->size` bytes
of the first memory block.  The `bool` behind `module_data` is `true` when
its byte is `1`.  When the extraction leaves the buffer nothing further is
modelled. -/
def module_load (module_data : List Byte) (block_data : List Byte) : LoadResult :=
  if module_data.length ≠ 1 ∨ module_data[0]? ≠ some 1 then
    ⟨some ERROR_SUCCESS, [], Status.returned⟩
  else
    let r := extractOleFields block_data Flags.init
    match r.status with
    | Status.returned =>
      ⟨some ERROR_SUCCESS,
        [("is_encrypted", boolToInt r.flags.is_encrypted),
         ("auto_open", boolToInt r.flags.found_auto_open),
         ("auto_close", boolToInt r.flags.found_auto_close)],
        Status.returned⟩
    | s => ⟨none, [], s⟩

/-- The loop of `extractOleFields` started at offset `o`, with the iteration
budget `extractOleFields` uses. -/
def scanFrom (data : List Byte) (o : Nat) (f : Flags) : Run :=
  extractLoop data (data.length + 1) ⟨o⟩ f

/-! ## Records on the wire -/

/-- A record as it lies in the stream: the four header bytes and the payload. -/
structure Record where
  klo : Byte
  khi : Byte
  slo : Byte
  shi : Byte
  payload : List Byte
deriving DecidableEq, Repr

/-- The record kind the header declares. -/
def Record.kind (r : Record) : Nat := r.klo.val + 256 * r.khi.val

/-- The payload size the header declares. -/
def Record.size (r : Record) : Nat := r.slo.val + 256 * r.shi.val

/-- The bytes of the record: header, then payload. -/
def Record.bytes (r : Record) : List Byte := [r.klo, r.khi, r.slo, r.shi] ++ r.payload

/-- The payload has the declared size. -/
@[reducible] def Record.wellFormed (r : Record) : Prop := r.payload.length = r.size

/-- The kind is neither `FilePass` nor `Label`. -/
@[reducible] def Record.nonDecisive (r : Record) : Prop :=
  r.kind ≠ OLEXLSRecordId.FilePass ∧ r.kind ≠ OLEXLSRecordId.Label

/-- A stream made of the given records, one after the other. -/
def encode : List Record → List Byte
  | [] => []
  | r :: rs => r.bytes ++ encode rs

/-- Offsets of the header bytes of records `rs` laid out from offset `o` on. -/
def headerReads : Nat → List Record → List Nat
  | _, [] => []
  | o, r :: rs => [o, o + 1, o + 2, o + 3] ++ headerReads (o + (4 + r.size)) rs

/-! ## Basic lemmas -/

theorem getElem?_append_at (pre mid : List Byte) (i : Nat) :
    (pre ++ mid)[pre.length + i]? = mid[i]? := by
  rw [List.getElem?_append_right (Nat.le_add_right _ _), Nat.add_sub_cancel_left]

theorem readU16_lt {data : List Byte} {o v : Nat} (h : readU16 data o = some v) :
    o + 1 < data.length := by
  unfold readU16 at h
  cases h1 : data[o + 1]? with
  | none => cases h0 : data[o]? <;> simp [h0, h1] at h
  | some b =>
    rcases List.getElem?_eq_some_iff.mp h1 with ⟨hlt, _⟩
    exact hlt

theorem readU16_eq {data : List Byte} {o : Nat} {lo hi : Byte}
    (h0 : data[o]? = some lo) (h1 : data[o + 1]? = some hi) :
    readU16 data o = some (lo.val + 256 * hi.val) := by
  simp [readU16, h0, h1]

theorem readU16_lt_65536 {data : List Byte} {o v : Nat} (h : readU16 data o = some v) :
    v < 65536 := by
  unfold readU16 at h
  cases h0 : data[o]? with
  | none => simp [h0] at h
  | some lo =>
    cases h1 : data[o + 1]? with
    | none => simp [h0, h1] at h
    | some hi =>
      simp [h0, h1] at h
      have := lo.isLt
      have := hi.isLt
      omega

/-- The iteration budget does not matter once it exceeds the distance to the end. -/
theorem extractLoop_fuel (data : List Byte) :
    ∀ (n m : Nat) (it : OLERecordIterator) (f : Flags),
      data.length < n + it.m_data → 0 < n → data.length < m + it.m_data → 0 < m →
      extractLoop data n it f = extractLoop data m it f := by
  intro n
  induction n with
  | zero => intro m it f _ h; omega
  | succ n ih =>
    intro m it f hn _ hm hm0
    obtain ⟨m, rfl⟩ : ∃ k, m = k + 1 := ⟨m - 1, by omega⟩
    unfold extractLoop
    split
    · cases hty : it.type data with
      | none => rfl
      | some ty =>
        have hlt := readU16_lt hty
        simp only []
        split
        · rfl
        · split
          · rfl
          · cases hnx : it.next data with
            | none => rfl
            | some it2 =>
              simp only []
              have h2 : it.m_data + sizeofHeader ≤ it2.m_data := by
                unfold OLERecordIterator.next at hnx
                cases hsz : it.size data with
                | none => simp [hsz] at hnx
                | some sz =>
                  simp only [hsz, Option.some.injEq] at hnx
                  subst hnx
                  show it.m_data + sizeofHeader ≤ it.m_data + (sizeofHeader + sz)
                  omega
              have h4 : sizeofHeader = 4 := rfl
              rw [ih m it2 f (by omega) (by omega) (by omega) (by omega)]
    · rfl

/-! ## One iteration of the loop -/

theorem scanFrom_end (data : List Byte) (f : Flags) :
    scanFrom data data.length f = ⟨f, [], data.length, Status.returned⟩ := by
  simp [scanFrom, extractLoop, OLERecordIterator.ne, OLEFile.end_]

theorem scanFrom_filepass {data : List Byte} {o : Nat} (f : Flags)
    (hty : readU16 data o = some OLEXLSRecordId.FilePass) :
    scanFrom data o f
      = ⟨{ f with is_encrypted := true }, [o, o + 1], o, Status.returned⟩ := by
  have hlt := readU16_lt hty
  have hne : ¬ data.length = o := by omega
  simp [scanFrom, extractLoop, OLERecordIterator.ne, OLEFile.end_, OLERecordIterator.type,
    hty, hne]

theorem scanFrom_label {data : List Byte} {o : Nat} (f : Flags)
    (hty : readU16 data o = some OLEXLSRecordId.Label) :
    scanFrom data o f = (parseLabelHeader data o f).after [o, o + 1] := by
  have hlt := readU16_lt hty
  have hne : ¬ data.length = o := by omega
  have hk : ¬ OLEXLSRecordId.Label = OLEXLSRecordId.FilePass := by decide
  simp [scanFrom, extractLoop, OLERecordIterator.ne, OLEFile.end_, OLERecordIterator.type,
    hty, hne, hk]

theorem scanFrom_skip {data : List Byte} {o ty sz : Nat} (f : Flags)
    (hty : readU16 data o = some ty) (h1 : ty ≠ OLEXLSRecordId.FilePass)
    (h2 : ty ≠ OLEXLSRecordId.Label) (hsz : readU16 data (o + 2) = some sz) :
    scanFrom data o f
      = (scanFrom data (o + (4 + sz)) f).after [o, o + 1, o + 2, o + 3] := by
  have hlt := readU16_lt hsz
  have hne : ¬ data.length = o := by omega
  have hfuel : extractLoop data data.length ⟨o + (4 + sz)⟩ f
      = extractLoop data (data.length + 1) ⟨o + (4 + sz)⟩ f :=
    extractLoop_fuel data _ _ _ f (by show data.length < data.length + (o + (4 + sz)); omega)
      (by omega) (by show data.length < data.length + 1 + (o + (4 + sz)); omega) (by omega)
  simp [scanFrom, extractLoop, OLERecordIterator.ne, OLEFile.end_, OLERecordIterator.type,
    OLERecordIterator.next, OLERecordIterator.size, sizeofHeader, hty, hsz, hne, h1, h2, hfuel]

theorem extractOleFields_eq_scanFrom (data : List Byte) (f : Flags) :
    extractOleFields data f = scanFrom data 0 f := rfl

/-! ## What a run can do to the flags -/

theorem parseLabelHeader_flags (data : List Byte) (record : Nat) (f : Flags) :
    (parseLabelHeader data record f).flags = f ∨
      (parseLabelHeader data record f).flags = { f with found_auto_close := true } := by
  unfold parseLabelHeader
  cases readU16 data (record + 2) with
  | none => left; rfl
  | some size =>
    by_cases h16 : size < 16
    · left; simp [h16]
    · cases h0 : data[record + sizeofHeader]? with
      | none => left; simp [h16, h0]
      | some b0 =>
        by_cases hb : b0.val &&& 0x20 ≠ 0
        · cases h15 : data[record + sizeofHeader + 15]? with
          | none => left; simp [h16, h0, hb, h15]
          | some b15 =>
            by_cases ho : charToInt b15 = BuiltinNames.AutoOpen
            · right; simp [h16, h0, hb, h15, ho]
            · by_cases hc : charToInt b15 = BuiltinNames.AutoClose
              · right; simp [h16, h0, hb, h15, ho, hc]
              · left; simp [h16, h0, hb, h15, ho, hc]
        · left; simp [h16, h0, hb]

theorem extractLoop_flags (data : List Byte) :
    ∀ (fuel : Nat) (it : OLERecordIterator) (f : Flags),
      (extractLoop data fuel it f).flags = f ∨
      (extractLoop data fuel it f).flags = { f with is_encrypted := true } ∨
      (extractLoop data fuel it f).flags = { f with found_auto_close := true } := by
  intro fuel
  induction fuel with
  | zero => intro it f; left; rfl
  | succ n ih =>
    intro it f
    unfold extractLoop
    split
    · split
      · left; rfl
      · split
        · right; left; rfl
        · split
          · rcases parseLabelHeader_flags data it.m_data f with h | h
            · left; exact h
            · right; right; exact h
          · split
            · left; rfl
            · exact ih _ f
    · left; rfl

/-! ## Walking over well-formed records -/

theorem Run.after_nil (r : Run) : r.after [] = r := rfl

theorem Run.after_after (a b : List Nat) (r : Run) :
    (r.after b).after a = r.after (a ++ b) := by
  simp [Run.after]

theorem Run.after_flags (a : List Nat) (r : Run) : (r.after a).flags = r.flags := rfl

theorem Run.after_status (a : List Nat) (r : Run) : (r.after a).status = r.status := rfl

theorem Run.after_cursor (a : List Nat) (r : Run) : (r.after a).cursor = r.cursor := rfl

theorem Run.after_reads (a : List Nat) (r : Run) : (r.after a).reads = a ++ r.reads := rfl

theorem Record.bytes_length (r : Record) : r.bytes.length = 4 + r.payload.length := by
  simp [Record.bytes]; omega

/-- The header fields of a record that lies at offset `pre.length`. -/
theorem readU16_record_kind (pre : List Byte) (r : Record) (rest : List Byte) :
    readU16 (pre ++ (r.bytes ++ rest)) pre.length = some r.kind := by
  have h0 : (pre ++ (r.bytes ++ rest))[pre.length]? = some r.klo := by
    have := getElem?_append_at pre (r.bytes ++ rest) 0
    simpa [Record.bytes] using this
  have h1 : (pre ++ (r.bytes ++ rest))[pre.length + 1]? = some r.khi := by
    have := getElem?_append_at pre (r.bytes ++ rest) 1
    simpa [Record.bytes] using this
  exact readU16_eq h0 h1

theorem readU16_record_size (pre : List Byte) (r : Record) (rest : List Byte) :
    readU16 (pre ++ (r.bytes ++ rest)) (pre.length + 2) = some r.size := by
  have h0 : (pre ++ (r.bytes ++ rest))[pre.length + 2]? = some r.slo := by
    have := getElem?_append_at pre (r.bytes ++ rest) 2
    simpa [Record.bytes] using this
  have h1 : (pre ++ (r.bytes ++ rest))[pre.length + 2 + 1]? = some r.shi := by
    have := getElem?_append_at pre (r.bytes ++ rest) 3
    rw [Nat.add_assoc]
    simpa [Record.bytes] using this
  exact readU16_eq h0 h1

/-- Payload byte `i` of a record that lies at offset `pre.length`. -/
theorem getElem?_record_payload (pre : List Byte) (r : Record) (rest : List Byte) (i : Nat)
    (hi : i < r.payload.length) :
    (pre ++ (r.bytes ++ rest))[pre.length + 4 + i]? = r.payload[i]? := by
  have h := getElem?_append_at pre (r.bytes ++ rest) (4 + i)
  rw [Nat.add_assoc, h]
  have h2 : r.bytes ++ rest = [r.klo, r.khi, r.slo, r.shi] ++ (r.payload ++ rest) := by
    simp [Record.bytes]
  rw [h2]
  have h3 := getElem?_append_at [r.klo, r.khi, r.slo, r.shi] (r.payload ++ rest) i
  simp only [List.length_cons, List.length_nil] at h3
  rw [h3, List.getElem?_append_left hi]

/-- The walk steps over a run of well-formed records that are neither
`FilePass` nor `Label`, loading their header bytes only. -/
theorem scanFrom_records (rs : List Record) :
    ∀ (pre tail data : List Byte) (f : Flags),
      data = pre ++ (encode rs ++ tail) →
      (∀ r ∈ rs, r.wellFormed ∧ r.nonDecisive) →
      scanFrom data pre.length f
        = (scanFrom data (pre.length + (encode rs).length) f).after
            (headerReads pre.length rs) := by
  induction rs with
  | nil =>
    intro pre tail data f _ _
    simp [encode, headerReads, Run.after_nil]
  | cons r rs ih =>
    intro pre tail data f hd hall
    have hr := hall r (List.mem_cons_self _ _)
    have hrest : ∀ x ∈ rs, x.wellFormed ∧ x.nonDecisive :=
      fun x hx => hall x (List.mem_cons_of_mem _ hx)
    have hd1 : data = pre ++ (r.bytes ++ (encode rs ++ tail)) := by
      rw [hd]; simp [encode]
    have hk : readU16 data pre.length = some r.kind := by
      rw [hd1]; exact readU16_record_kind pre r _
    have hs : readU16 data (pre.length + 2) = some r.size := by
      rw [hd1]; exact readU16_record_size pre r _
    have hlen : (pre ++ r.bytes).length = pre.length + (4 + r.size) := by
      rw [List.length_append, Record.bytes_length, hr.1]
    have hd2 : data = (pre ++ r.bytes) ++ (encode rs ++ tail) := by
      rw [hd1]; simp
    have hih := ih (pre ++ r.bytes) tail data f hd2 hrest
    rw [hlen] at hih
    rw [scanFrom_skip f hk hr.2.1 hr.2.2 hs, hih, Run.after_after]
    have he : pre.length + (encode (r :: rs)).length
        = pre.length + (4 + r.size) + (encode rs).length := by
      simp only [encode, List.length_append, Record.bytes_length, hr.1]
      omega
    rw [he]
    rfl

theorem encode_cons_length (r : Record) (rs : List Record) :
    (encode (r :: rs)).length = 4 + r.payload.length + (encode rs).length := by
  simp only [encode, List.length_append, Record.bytes_length]

/-- The header offsets of well-formed records lie inside their encoding. -/
theorem headerReads_lt (rs : List Record) :
    ∀ (o : Nat), (∀ r ∈ rs, r.wellFormed) →
      ∀ i ∈ headerReads o rs, i < o + (encode rs).length := by
  induction rs with
  | nil => intro o _ i hi; simp [headerReads] at hi
  | cons r rs ih =>
    intro o hall i hi
    have hr : r.payload.length = r.size := hall r (List.mem_cons_self _ _)
    have hrest : ∀ x ∈ rs, x.wellFormed := fun x hx => hall x (List.mem_cons_of_mem _ hx)
    rw [encode_cons_length]
    simp only [headerReads, List.mem_append, List.mem_cons, List.mem_singleton,
      List.not_mem_nil, or_false] at hi
    rcases hi with (h | h | h | h) | h
    · omega
    · omega
    · omega
    · omega
    · have := ih (o + (4 + r.size)) hrest i h
      omega

/-! ## `parseLabelHeader` case by case -/

theorem parseLabelHeader_short {data : List Byte} {o sz : Nat} (f : Flags)
    (hs : readU16 data (o + 2) = some sz) (h16 : sz < 16) :
    parseLabelHeader data o f = ⟨f, [o + 2, o + 3], o, Status.returned⟩ := by
  simp [parseLabelHeader, hs, h16]

theorem parseLabelHeader_user {data : List Byte} {o sz : Nat} {b0 : Byte} (f : Flags)
    (hs : readU16 data (o + 2) = some sz) (h16 : ¬ sz < 16)
    (h0 : data[o + 4]? = some b0) (hb : b0.val &&& 0x20 = 0) :
    parseLabelHeader data o f = ⟨f, [o + 2, o + 3, o + 4], o, Status.returned⟩ := by
  simp [parseLabelHeader, sizeofHeader, hs, h16, h0, hb]

theorem parseLabelHeader_builtin {data : List Byte} {o sz : Nat} {b0 b15 : Byte} (f : Flags)
    (hs : readU16 data (o + 2) = some sz) (h16 : ¬ sz < 16)
    (h0 : data[o + 4]? = some b0) (hb : b0.val &&& 0x20 ≠ 0)
    (h15 : data[o + 4 + 15]? = some b15) :
    parseLabelHeader data o f
      = ⟨if charToInt b15 = BuiltinNames.AutoOpen ∨ charToInt b15 = BuiltinNames.AutoClose
          then { f with found_auto_close := true } else f,
         [o + 2, o + 3, o + 4, o + 4 + 15], o, Status.returned⟩ := by
  by_cases ho : charToInt b15 = BuiltinNames.AutoOpen
  · simp [parseLabelHeader, sizeofHeader, hs, h16, h0, hb, h15, ho]
  · by_cases hc : charToInt b15 = BuiltinNames.AutoClose
    · simp [parseLabelHeader, sizeofHeader, hs, h16, h0, hb, h15, ho, hc]
    · simp [parseLabelHeader, sizeofHeader, hs, h16, h0, hb, h15, ho, hc]

/-- The outcome of `parseLabelHeader` depends only on the size field and, when
the size is at least 16, on payload bytes 0 and 15. -/
theorem parseLabelHeader_congr {d1 d2 : List Byte} {o : Nat} (f : Flags)
    (hs : readU16 d1 (o + 2) = readU16 d2 (o + 2))
    (hp : ∀ sz, readU16 d1 (o + 2) = some sz → ¬ sz < 16 →
      d1[o + 4]? = d2[o + 4]? ∧ d1[o + 4 + 15]? = d2[o + 4 + 15]?) :
    parseLabelHeader d1 o f = parseLabelHeader d2 o f := by
  unfold parseLabelHeader
  rw [← hs]
  cases hsz : readU16 d1 (o + 2) with
  | none => rfl
  | some sz =>
    by_cases h16 : sz < 16
    · simp [h16]
    · obtain ⟨e0, e15⟩ := hp sz hsz h16
      simp only [sizeofHeader, h16, if_false, ← e0, ← e15]

theorem parseLabelHeader_reads_lt {data : List Byte} {o sz : Nat} (f : Flags)
    (hs : readU16 data (o + 2) = some sz) :
    ∀ i ∈ (parseLabelHeader data o f).reads, i < o + 4 + sz := by
  intro i hi
  unfold parseLabelHeader at hi
  rw [hs] at hi
  simp only [sizeofHeader] at hi
  by_cases h16 : sz < 16
  · simp [h16] at hi; omega
  · cases h0 : data[o + 4]? with
    | none => simp [h16, h0] at hi; omega
    | some b0 =>
      by_cases hb : b0.val &&& 0x20 ≠ 0
      · cases h15 : data[o + 4 + 15]? with
        | none => simp [h16, h0, hb, h15] at hi; omega
        | some b15 =>
          by_cases ho : charToInt b15 = BuiltinNames.AutoOpen
          · simp [h16, h0, hb, h15, ho] at hi; omega
          · by_cases hc : charToInt b15 = BuiltinNames.AutoClose
            · simp [h16, h0, hb, h15, ho, hc] at hi; omega
            · simp [h16, h0, hb, h15, ho, hc] at hi; omega
      · simp [h16, h0, hb] at hi; omega

/-- Whether `parseLabelHeader` returns depends on the loads only: it stops
with `overrun` exactly when a byte it needs lies outside the buffer. -/
theorem parseLabelHeader_status (data : List Byte) (record : Nat) (f : Flags) :
    (parseLabelHeader data record f).status
      = if (parseLabelHeader data record f).status = Status.returned
          then Status.returned else Status.overrun := by
  unfold parseLabelHeader
  cases readU16 data (record + 2) with
  | none => simp
  | some size =>
    by_cases h16 : size < 16
    · simp [h16]
    · cases h0 : data[record + sizeofHeader]? with
      | none => simp [h16, h0]
      | some b0 =>
        by_cases hb : b0.val &&& 0x20 ≠ 0
        · cases h15 : data[record + sizeofHeader + 15]? with
          | none => simp [h16, h0, hb, h15]
          | some b15 =>
            by_cases ho : charToInt b15 = BuiltinNames.AutoOpen
            · simp [h16, h0, hb, h15, ho]
            · by_cases hc : charToInt b15 = BuiltinNames.AutoClose
              · simp [h16, h0, hb, h15, ho, hc]
              · simp [h16, h0, hb, h15, ho, hc]
        · simp [h16, h0, hb]

/-- With the budget `extractOleFields` uses, the loop never runs out of iterations. -/
theorem extractLoop_status_ne_exhausted (data : List Byte) :
    ∀ (n : Nat) (it : OLERecordIterator) (f : Flags),
      data.length < n + it.m_data → 0 < n →
      (extractLoop data n it f).status ≠ Status.exhausted := by
  intro n
  induction n with
  | zero => intro it f _ h; omega
  | succ n ih =>
    intro it f hn _
    unfold extractLoop
    split
    · cases hty : it.type data with
      | none => simp
      | some ty =>
        have hlt := readU16_lt hty
        simp only []
        split
        · simp
        · split
          · rw [Run.after_status, parseLabelHeader_status]
            split <;> simp
          · cases hnx : it.next data with
            | none => simp
            | some it2 =>
              simp only []
              have h2 : it.m_data + sizeofHeader ≤ it2.m_data := by
                unfold OLERecordIterator.next at hnx
                cases hsz : it.size data with
                | none => simp [hsz] at hnx
                | some sz =>
                  simp only [hsz, Option.some.injEq] at hnx
                  subst hnx
                  show it.m_data + sizeofHeader ≤ it.m_data + (sizeofHeader + sz)
                  omega
              have h4 : sizeofHeader = 4 := rfl
              rw [Run.after_status]
              exact ih it2 f (by omega) (by omega)
    · simp

theorem extractOleFields_status_ne_exhausted (data : List Byte) (f : Flags) :
    (extractOleFields data f).status ≠ Status.exhausted :=
  extractLoop_status_ne_exhausted data _ _ f
    (by show data.length < data.length + 1 + 0; omega) (by omega)

theorem parseLabelHeader_auto_open (data : List Byte) (record : Nat) (f : Flags) :
    (parseLabelHeader data record f).flags.found_auto_open = f.found_auto_open := by
  rcases parseLabelHeader_flags data record f with h | h <;> rw [h]

theorem extractOleFields_auto_open (data : List Byte) (f : Flags) :
    (extractOleFields data f).flags.found_auto_open = f.found_auto_open := by
  rcases extractLoop_flags data (data.length + 1) (OLEFile.begin data) f with h | h | h <;>
    (unfold extractOleFields; rw [h])

/-! ## Claims -/

/-- C1: when the buffer starts with a record of kind `FilePass` (0x002F) whose
declared payload lies inside the buffer, `extractOleFields` started from
all-false flags returns with `is_encrypted = true`, `found_auto_open = false`
and `found_auto_close = false`; it loads bytes 0 and 1 only, so nothing beyond
that first record. -/
theorem C1_filepass_first (d : Record) (rest : List Byte)
    (hk : d.kind = OLEXLSRecordId.FilePass) (hwf : d.wellFormed) :
    extractOleFields (d.bytes ++ rest) Flags.init
        = ⟨⟨false, false, true⟩, [0, 1], 0, Status.returned⟩ ∧
      ∀ i ∈ (extractOleFields (d.bytes ++ rest) Flags.init).reads, i < d.bytes.length := by
  have hty : readU16 (d.bytes ++ rest) 0 = some OLEXLSRecordId.FilePass := by
    have := readU16_record_kind [] d rest
    rw [hk] at this
    simpa using this
  have hrun := scanFrom_filepass Flags.init hty
  rw [extractOleFields_eq_scanFrom, hrun]
  refine ⟨rfl, ?_⟩
  intro i hi
  rw [Record.bytes_length]
  simp at hi
  omega

/-- Witness of C1: a `FilePass` record with a two-byte payload, followed by a `Label`. -/
theorem C1_filepass_first_witness :
    (Record.mk 0x2F 0x00 0x02 0x00 [0xAA, 0xBB]).kind = OLEXLSRecordId.FilePass ∧
    (Record.mk 0x2F 0x00 0x02 0x00 [0xAA, 0xBB]).wellFormed ∧
    (extractOleFields ((Record.mk 0x2F 0x00 0x02 0x00 [0xAA, 0xBB]).bytes ++ [0x18, 0x00]) Flags.init
        = ⟨⟨false, false, true⟩, [0, 1], 0, Status.returned⟩ ∧
      ∀ i ∈ (extractOleFields ((Record.mk 0x2F 0x00 0x02 0x00 [0xAA, 0xBB]).bytes ++ [0x18, 0x00])
          Flags.init).reads,
        i < (Record.mk 0x2F 0x00 0x02 0x00 [0xAA, 0xBB]).bytes.length) :=
  ⟨by decide, by decide, C1_filepass_first _ _ (by decide) (by decide)⟩

/-- C2: when the buffer starts with a `Label` record (0x0018) with
`size = 16`, payload byte 0 equal to 0x20 and payload byte 15 equal to 1 (the
`AutoOpen` selector), `extractOleFields` started from all-false flags returns
with `found_auto_close = true`, `is_encrypted = false` and
`found_auto_open = false`. -/
theorem C2_label_auto_open_selector (d : Record) (rest : List Byte)
    (hk : d.kind = OLEXLSRecordId.Label) (hsz : d.size = 16) (hwf : d.wellFormed)
    (h0 : d.payload[0]? = some 0x20) (h15 : d.payload[15]? = some 1) :
    (extractOleFields (d.bytes ++ rest) Flags.init).flags = ⟨false, true, false⟩ ∧
      (extractOleFields (d.bytes ++ rest) Flags.init).status = Status.returned := by
  have hlen : d.payload.length = 16 := by rw [hwf, hsz]
  have hty : readU16 (d.bytes ++ rest) 0 = some OLEXLSRecordId.Label := by
    have := readU16_record_kind [] d rest
    rw [hk] at this
    simpa using this
  have hs : readU16 (d.bytes ++ rest) (0 + 2) = some 16 := by
    have := readU16_record_size [] d rest
    rw [hsz] at this
    simpa using this
  have e0 : (d.bytes ++ rest)[0 + 4]? = some 0x20 := by
    have := getElem?_record_payload [] d rest 0 (by omega)
    rw [h0] at this
    simpa using this
  have e15 : (d.bytes ++ rest)[0 + 4 + 15]? = some 1 := by
    have := getElem?_record_payload [] d rest 15 (by omega)
    rw [h15] at this
    simpa using this
  have hp := parseLabelHeader_builtin Flags.init hs (by omega) e0 (by decide) e15
  rw [extractOleFields_eq_scanFrom, scanFrom_label Flags.init hty, hp]
  exact ⟨by decide, rfl⟩

/-- Witness of C2: the 20-byte `Label` record of the claim, followed by a `FilePass` header. -/
theorem C2_label_auto_open_selector_witness :
    (Record.mk 0x18 0x00 0x10 0x00 [0x20, 0, 0, 0, 0, 0, 0, 0, 0, 0, 0, 0, 0, 0, 0, 1]).kind
        = OLEXLSRecordId.Label ∧
    (extractOleFields
        ((Record.mk 0x18 0x00 0x10 0x00 [0x20, 0, 0, 0, 0, 0, 0, 0, 0, 0, 0, 0, 0, 0, 0, 1]).bytes
          ++ [0x2F, 0x00, 0x00, 0x00]) Flags.init).flags = ⟨false, true, false⟩ ∧
    (extractOleFields
        ((Record.mk 0x18 0x00 0x10 0x00 [0x20, 0, 0, 0, 0, 0, 0, 0, 0, 0, 0, 0, 0, 0, 0, 1]).bytes
          ++ [0x2F, 0x00, 0x00, 0x00]) Flags.init).status = Status.returned :=
  ⟨by decide,
    C2_label_auto_open_selector _ _ (by decide) (by decide) (by decide) (by decide) (by decide)⟩

/-- C3: when the buffer consists of any number of well-formed records of kinds
other than `FilePass` and `Label` (each with its full payload, `Eof` and
unlisted kinds included) followed by the header of
a `FilePass` record, `extractOleFields` started from all-false flags walks
over those records and returns with `is_encrypted = true` and the other two
flags `false`; it loads the header bytes of the records it steps over and the
two kind bytes of the `FilePass` header. -/
theorem C3_order_sensitivity (rs : List Record) (slo shi : Byte) (rest : List Byte)
    (hrs : ∀ r ∈ rs, r.wellFormed ∧ r.nonDecisive) :
    extractOleFields (encode rs ++ ([0x2F, 0x00, slo, shi] ++ rest)) Flags.init
      = ⟨⟨false, false, true⟩,
         headerReads 0 rs ++ [(encode rs).length, (encode rs).length + 1],
         (encode rs).length, Status.returned⟩ := by
  have hwalk := scanFrom_records rs [] ([0x2F, 0x00, slo, shi] ++ rest)
    (encode rs ++ ([0x2F, 0x00, slo, shi] ++ rest)) Flags.init (by simp) hrs
  simp only [List.length_nil, Nat.zero_add] at hwalk
  have hty : readU16 (encode rs ++ ([0x2F, 0x00, slo, shi] ++ rest)) (encode rs).length
      = some OLEXLSRecordId.FilePass := by
    have := readU16_record_kind (encode rs) (Record.mk 0x2F 0x00 slo shi []) rest
    simpa [Record.bytes, Record.kind, OLEXLSRecordId.FilePass] using this
  rw [extractOleFields_eq_scanFrom, hwalk, scanFrom_filepass Flags.init hty]
  rfl

/-- Witness of C3: an `Eof` record with a one-byte payload and an empty
`BoundSheet` record, then a `FilePass` header. -/
theorem C3_order_sensitivity_witness :
    (∀ r ∈ [Record.mk 0x0A 0x00 0x01 0x00 [0xFF], Record.mk 0x85 0x00 0x00 0x00 []],
      r.wellFormed ∧ r.nonDecisive) ∧
    extractOleFields
        (encode [Record.mk 0x0A 0x00 0x01 0x00 [0xFF], Record.mk 0x85 0x00 0x00 0x00 []]
          ++ ([0x2F, 0x00, 0x00, 0x00] ++ [])) Flags.init
      = ⟨⟨false, false, true⟩,
         headerReads 0 [Record.mk 0x0A 0x00 0x01 0x00 [0xFF], Record.mk 0x85 0x00 0x00 0x00 []]
           ++ [(encode [Record.mk 0x0A 0x00 0x01 0x00 [0xFF],
                 Record.mk 0x85 0x00 0x00 0x00 []]).length,
               (encode [Record.mk 0x0A 0x00 0x01 0x00 [0xFF],
                 Record.mk 0x85 0x00 0x00 0x00 []]).length + 1],
         (encode [Record.mk 0x0A 0x00 0x01 0x00 [0xFF], Record.mk 0x85 0x00 0x00 0x00 []]).length,
         Status.returned⟩ :=
  ⟨by decide, C3_order_sensitivity _ _ _ _ (by decide)⟩

/-- C4 (the code at a failing input): the four-byte buffer `0A 00 05 00` is one
`Eof` record that declares five payload bytes, none of which is there.  The
iterator moves to offset 9, which differs from the end offset 4, so the loop
goes on and loads the kind field at offsets 9 and 10, outside the buffer. -/
theorem C4_truncated_payload_overrun :
    extractOleFields [0x0A, 0x00, 0x05, 0x00] Flags.init
      = ⟨Flags.init, [0, 1, 2, 3, 9, 10], 9, Status.overrun⟩ := by
  decide

/-- C5: `found_auto_open` is never written.  Whatever the buffer, a run of
`extractOleFields` (and of `parseLabelHeader`, at any record offset) that
starts with `found_auto_open = false` ends with `found_auto_open = false`,
the label inspector setting `found_auto_close` for selector 1 as for
selector 2; and every `auto_open` value `module_load` publishes is 0. -/
theorem C5_auto_open_never_set (data : List Byte) (f : Flags) (module_data : List Byte)
    (record : Nat) (hf : f.found_auto_open = false) :
    (extractOleFields data f).flags.found_auto_open = false ∧
      (parseLabelHeader data record f).flags.found_auto_open = false ∧
      ∀ v, ("auto_open", v) ∈ (module_load module_data data).fields → v = 0 := by
  refine ⟨?_, ?_, ?_⟩
  · rw [extractOleFields_auto_open, hf]
  · rw [parseLabelHeader_auto_open, hf]
  · intro v hv
    unfold module_load at hv
    split at hv
    · simp at hv
    · have hao := extractOleFields_auto_open data Flags.init
      cases hst : (extractOleFields data Flags.init).status with
      | returned =>
        simp only [hst, hao] at hv
        simp [Flags.init, boolToInt] at hv
        exact hv
      | overrun => simp [hst] at hv
      | exhausted => simp [hst] at hv

/-- Witness of C5: a `Label` record with the `AutoOpen` selector, scanned with the host flag set. -/
theorem C5_auto_open_never_set_witness :
    Flags.init.found_auto_open = false ∧
    ((extractOleFields
        [0x18, 0x00, 0x10, 0x00, 0x20, 0, 0, 0, 0, 0, 0, 0, 0, 0, 0, 0, 0, 0, 0, 1]
        Flags.init).flags.found_auto_open = false ∧
      (parseLabelHeader
        [0x18, 0x00, 0x10, 0x00, 0x20, 0, 0, 0, 0, 0, 0, 0, 0, 0, 0, 0, 0, 0, 0, 1] 0
        Flags.init).flags.found_auto_open = false ∧
      ∀ v, ("auto_open", v) ∈ (module_load [1]
        [0x18, 0x00, 0x10, 0x00, 0x20, 0, 0, 0, 0, 0, 0, 0, 0, 0, 0, 0, 0, 0, 0, 1]).fields →
        v = 0) :=
  ⟨rfl, C5_auto_open_never_set _ _ _ _ rfl⟩

/-- C6: early stop on the first decisive record.  Let the buffer consist of
well-formed records of kinds other than `FilePass` and `Label`, then a
decisive record `d` (the four header bytes of a `FilePass` record, or a
`Label` record with its payload), then anything.  The run of
`extractOleFields` is the same whatever follows `d` (same flags, same loads,
same status), it loads no byte beyond `d`, and a `FilePass` header followed by
any record, an auto-execution `Label` included, leaves `found_auto_close`
`false`. -/
theorem C6_early_stop (rs : List Record) (d : Record) (rest1 rest2 : List Byte) (f : Flags)
    (slo shi : Byte) (l : Record)
    (hrs : ∀ r ∈ rs, r.wellFormed ∧ r.nonDecisive)
    (hd : (d.kind = OLEXLSRecordId.FilePass ∧ d.payload = []) ∨
      (d.kind = OLEXLSRecordId.Label ∧ d.wellFormed)) :
    extractOleFields (encode rs ++ (d.bytes ++ rest1)) f
        = extractOleFields (encode rs ++ (d.bytes ++ rest2)) f ∧
      (∀ i ∈ (extractOleFields (encode rs ++ (d.bytes ++ rest1)) f).reads,
        i < (encode rs ++ d.bytes).length) ∧
      (extractOleFields (encode rs ++ ((Record.mk 0x2F 0x00 slo shi []).bytes
          ++ (l.bytes ++ rest1))) Flags.init).flags = ⟨false, false, true⟩ := by
  have hwalk : ∀ (x : Record) (rest : List Byte),
      extractOleFields (encode rs ++ (x.bytes ++ rest)) f
        = (scanFrom (encode rs ++ (x.bytes ++ rest)) (encode rs).length f).after
            (headerReads 0 rs) := by
    intro x rest
    have h := scanFrom_records rs [] (x.bytes ++ rest) (encode rs ++ (x.bytes ++ rest)) f
      (by simp) hrs
    simpa using h
  have hwf : ∀ r ∈ rs, r.wellFormed := fun r hr => (hrs r hr).1
  have hhdr : ∀ i ∈ headerReads 0 rs, i < (encode rs).length := by
    intro i hi
    have := headerReads_lt rs 0 hwf i hi
    omega
  refine ⟨?_, ?_, ?_⟩
  · rcases hd with ⟨hk, _⟩ | ⟨hk, hdwf⟩
    · have hty : ∀ rest, readU16 (encode rs ++ (d.bytes ++ rest)) (encode rs).length
          = some OLEXLSRecordId.FilePass := by
        intro rest; rw [← hk]; exact readU16_record_kind (encode rs) d rest
      rw [hwalk d rest1, hwalk d rest2, scanFrom_filepass f (hty rest1),
        scanFrom_filepass f (hty rest2)]
    · have hty : ∀ rest, readU16 (encode rs ++ (d.bytes ++ rest)) (encode rs).length
          = some OLEXLSRecordId.Label := by
        intro rest; rw [← hk]; exact readU16_record_kind (encode rs) d rest
      rw [hwalk d rest1, hwalk d rest2, scanFrom_label f (hty rest1),
        scanFrom_label f (hty rest2)]
      have hc : parseLabelHeader (encode rs ++ (d.bytes ++ rest1)) (encode rs).length f
          = parseLabelHeader (encode rs ++ (d.bytes ++ rest2)) (encode rs).length f := by
        apply parseLabelHeader_congr
        · rw [readU16_record_size, readU16_record_size]
        · intro sz hsz h16
          rw [readU16_record_size] at hsz
          have hlen : d.payload.length = sz := by
            have h1 : d.payload.length = d.size := hdwf
            have h2 : d.size = sz := Option.some.inj hsz
            omega
          have a0 := getElem?_record_payload (encode rs) d rest1 0 (by omega)
          have b0 := getElem?_record_payload (encode rs) d rest2 0 (by omega)
          have a15 := getElem?_record_payload (encode rs) d rest1 15 (by omega)
          have b15 := getElem?_record_payload (encode rs) d rest2 15 (by omega)
          simp only [Nat.add_zero] at a0 b0
          exact ⟨by rw [a0, b0], by rw [a15, b15]⟩
      rw [hc]
  · intro i hi
    rw [List.length_append, Record.bytes_length]
    rw [hwalk d rest1, Run.after_reads, List.mem_append] at hi
    rcases hi with hi | hi
    · have := hhdr i hi
      omega
    · rcases hd with ⟨hk, _⟩ | ⟨hk, hdwf⟩
      · have hty : readU16 (encode rs ++ (d.bytes ++ rest1)) (encode rs).length
            = some OLEXLSRecordId.FilePass := by
          rw [← hk]; exact readU16_record_kind (encode rs) d rest1
        rw [scanFrom_filepass f hty] at hi
        simp at hi
        omega
      · have hty : readU16 (encode rs ++ (d.bytes ++ rest1)) (encode rs).length
            = some OLEXLSRecordId.Label := by
          rw [← hk]; exact readU16_record_kind (encode rs) d rest1
        rw [scanFrom_label f hty, Run.after_reads, List.mem_append] at hi
        have h1 : d.payload.length = d.size := hdwf
        rcases hi with hi | hi
        · simp at hi
          omega
        · have := parseLabelHeader_reads_lt f
            (readU16_record_size (encode rs) d rest1) i hi
          omega
  · have h := scanFrom_records rs [] ((Record.mk 0x2F 0x00 slo shi []).bytes ++ (l.bytes ++ rest1))
      (encode rs ++ ((Record.mk 0x2F 0x00 slo shi []).bytes ++ (l.bytes ++ rest1))) Flags.init
      (by simp) hrs
    simp only [List.length_nil, Nat.zero_add] at h
    have hty : readU16 (encode rs ++ ((Record.mk 0x2F 0x00 slo shi []).bytes ++ (l.bytes ++ rest1)))
        (encode rs).length = some OLEXLSRecordId.FilePass :=
      readU16_record_kind (encode rs) (Record.mk 0x2F 0x00 slo shi []) (l.bytes ++ rest1)
    rw [extractOleFields_eq_scanFrom, h, scanFrom_filepass Flags.init hty]
    rfl

/-- Witness of C6: an `Eof` record, then a `Label` record with the `AutoClose`
selector, followed in one buffer by a `FilePass` header and in the other by
nothing. -/
theorem C6_early_stop_witness :
    (∀ r ∈ [Record.mk 0x0A 0x00 0x00 0x00 []], r.wellFormed ∧ r.nonDecisive) ∧
    (extractOleFields (encode [Record.mk 0x0A 0x00 0x00 0x00 []] ++
        ((Record.mk 0x18 0x00 0x10 0x00 [0x20, 0, 0, 0, 0, 0, 0, 0, 0, 0, 0, 0, 0, 0, 0, 2]).bytes
          ++ [0x2F, 0x00, 0x00, 0x00])) Flags.init
      = extractOleFields (encode [Record.mk 0x0A 0x00 0x00 0x00 []] ++
        ((Record.mk 0x18 0x00 0x10 0x00 [0x20, 0, 0, 0, 0, 0, 0, 0, 0, 0, 0, 0, 0, 0, 0, 2]).bytes
          ++ [])) Flags.init ∧
      (∀ i ∈ (extractOleFields (encode [Record.mk 0x0A 0x00 0x00 0x00 []] ++
        ((Record.mk 0x18 0x00 0x10 0x00 [0x20, 0, 0, 0, 0, 0, 0, 0, 0, 0, 0, 0, 0, 0, 0, 2]).bytes
          ++ [0x2F, 0x00, 0x00, 0x00])) Flags.init).reads,
        i < (encode [Record.mk 0x0A 0x00 0x00 0x00 []] ++
          (Record.mk 0x18 0x00 0x10 0x00
            [0x20, 0, 0, 0, 0, 0, 0, 0, 0, 0, 0, 0, 0, 0, 0, 2]).bytes).length) ∧
      (extractOleFields (encode [Record.mk 0x0A 0x00 0x00 0x00 []] ++
        ((Record.mk 0x2F 0x00 0x00 0x00 []).bytes ++
          ((Record.mk 0x18 0x00 0x10 0x00
              [0x20, 0, 0, 0, 0, 0, 0, 0, 0, 0, 0, 0, 0, 0, 0, 1]).bytes
            ++ [0x2F, 0x00, 0x00, 0x00]))) Flags.init).flags = ⟨false, false, true⟩) :=
  ⟨by decide,
    C6_early_stop [Record.mk 0x0A 0x00 0x00 0x00 []]
      (Record.mk 0x18 0x00 0x10 0x00 [0x20, 0, 0, 0, 0, 0, 0, 0, 0, 0, 0, 0, 0, 0, 0, 2])
      [0x2F, 0x00, 0x00, 0x00] [] Flags.init 0x00 0x00
      (Record.mk 0x18 0x00 0x10 0x00 [0x20, 0, 0, 0, 0, 0, 0, 0, 0, 0, 0, 0, 0, 0, 0, 1])
      (by decide) (Or.inr (by decide))⟩

/-- C7: mutual exclusion.  For every buffer, at most one of the three flags is
`true` after `extractOleFields` started from all-false flags; in particular
`is_encrypted` is never `true` together with `found_auto_open` or
`found_auto_close`. -/
theorem C7_mutual_exclusion (data : List Byte) :
    List.count true
        [(extractOleFields data Flags.init).flags.is_encrypted,
         (extractOleFields data Flags.init).flags.found_auto_open,
         (extractOleFields data Flags.init).flags.found_auto_close] ≤ 1 ∧
      ((extractOleFields data Flags.init).flags.is_encrypted &&
        ((extractOleFields data Flags.init).flags.found_auto_open ||
          (extractOleFields data Flags.init).flags.found_auto_close)) = false := by
  rcases extractLoop_flags data (data.length + 1) (OLEFile.begin data) Flags.init
    with h | h | h <;>
    (unfold extractOleFields; rw [h]; decide)

/-- C8 (counterexample): a `Label` record with `size = 0` followed by a
`FilePass` record.  `extractOleFields` returns at the `Label` record, having
loaded its four header bytes only; `is_encrypted` stays `false`. -/
theorem C8_short_label_counterexample :
    extractOleFields [0x18, 0x00, 0x00, 0x00, 0x2F, 0x00, 0x00, 0x00] Flags.init
        = ⟨⟨false, false, false⟩, [0, 1, 2, 3], 0, Status.returned⟩ ∧
      ¬ (extractOleFields [0x18, 0x00, 0x00, 0x00, 0x2F, 0x00, 0x00, 0x00]
          Flags.init).flags.is_encrypted = true := by
  decide

/-- C8 (amended): a `Label` record whose declared size is below 16 sets no
flag and ends the scan.  When the buffer consists of well-formed records of
kinds other than `FilePass` and `Label`, then a `Label` header with
`size < 16`, then anything, `extractOleFields` returns with the flags it was
started with, its iterator still at that `Label` record, having loaded
nothing after the four header bytes of that record. -/
theorem C8_short_label_stops (rs : List Record) (slo shi : Byte) (rest : List Byte) (f : Flags)
    (hrs : ∀ r ∈ rs, r.wellFormed ∧ r.nonDecisive)
    (h16 : slo.val + 256 * shi.val < 16) :
    extractOleFields (encode rs ++ ([0x18, 0x00, slo, shi] ++ rest)) f
      = ⟨f,
         headerReads 0 rs ++ [(encode rs).length, (encode rs).length + 1,
           (encode rs).length + 2, (encode rs).length + 3],
         (encode rs).length, Status.returned⟩ := by
  have hwalk := scanFrom_records rs [] ([0x18, 0x00, slo, shi] ++ rest)
    (encode rs ++ ([0x18, 0x00, slo, shi] ++ rest)) f (by simp) hrs
  simp only [List.length_nil, Nat.zero_add] at hwalk
  have hty : readU16 (encode rs ++ ([0x18, 0x00, slo, shi] ++ rest)) (encode rs).length
      = some OLEXLSRecordId.Label := by
    have := readU16_record_kind (encode rs) (Record.mk 0x18 0x00 slo shi []) rest
    simpa [Record.bytes, Record.kind, OLEXLSRecordId.Label] using this
  have hs : readU16 (encode rs ++ ([0x18, 0x00, slo, shi] ++ rest)) ((encode rs).length + 2)
      = some (slo.val + 256 * shi.val) := by
    have := readU16_record_size (encode rs) (Record.mk 0x18 0x00 slo shi []) rest
    simpa [Record.bytes, Record.size] using this
  rw [extractOleFields_eq_scanFrom, hwalk, scanFrom_label f hty,
    parseLabelHeader_short f hs h16]
  rfl

/-- Witness of C8 (amended): an `Eof` record with a one-byte payload, a `Label`
header with `size = 15`, then a `FilePass` header. -/
theorem C8_short_label_stops_witness :
    (∀ r ∈ [Record.mk 0x0A 0x00 0x01 0x00 [0xFF]], r.wellFormed ∧ r.nonDecisive) ∧
    ((0x0F : Byte).val + 256 * (0x00 : Byte).val < 16) ∧
    extractOleFields (encode [Record.mk 0x0A 0x00 0x01 0x00 [0xFF]]
        ++ ([0x18, 0x00, 0x0F, 0x00] ++ [0x2F, 0x00, 0x00, 0x00])) Flags.init
      = ⟨Flags.init,
         headerReads 0 [Record.mk 0x0A 0x00 0x01 0x00 [0xFF]] ++
           [(encode [Record.mk 0x0A 0x00 0x01 0x00 [0xFF]]).length,
            (encode [Record.mk 0x0A 0x00 0x01 0x00 [0xFF]]).length + 1,
            (encode [Record.mk 0x0A 0x00 0x01 0x00 [0xFF]]).length + 2,
            (encode [Record.mk 0x0A 0x00 0x01 0x00 [0xFF]]).length + 3],
         (encode [Record.mk 0x0A 0x00 0x01 0x00 [0xFF]]).length, Status.returned⟩ :=
  ⟨by decide, by decide, C8_short_label_stops _ _ _ _ _ (by decide) (by decide)⟩

/-- C9: when the buffer starts with a `Label` record whose payload byte 0 has
bit 0x20 clear (a user-defined name), `extractOleFields` started from
all-false flags returns with all three flags `false`, whatever the declared
size, payload byte 15 and the bytes after the record are. -/
theorem C9_user_defined_label (d : Record) (rest : List Byte) (b0 : Byte)
    (hk : d.kind = OLEXLSRecordId.Label) (h0 : d.payload[0]? = some b0)
    (hb : b0.val &&& 0x20 = 0) :
    (extractOleFields (d.bytes ++ rest) Flags.init).flags = ⟨false, false, false⟩ ∧
      (extractOleFields (d.bytes ++ rest) Flags.init).status = Status.returned := by
  have hpos : 0 < d.payload.length := by
    rcases List.getElem?_eq_some_iff.mp h0 with ⟨h, _⟩
    exact h
  have hty : readU16 (d.bytes ++ rest) 0 = some OLEXLSRecordId.Label := by
    have := readU16_record_kind [] d rest
    rw [hk] at this
    simpa using this
  have hs : readU16 (d.bytes ++ rest) (0 + 2) = some d.size := by
    have := readU16_record_size [] d rest
    simpa using this
  have e0 : (d.bytes ++ rest)[0 + 4]? = some b0 := by
    have := getElem?_record_payload [] d rest 0 hpos
    rw [h0] at this
    simpa using this
  rw [extractOleFields_eq_scanFrom, scanFrom_label Flags.init hty]
  by_cases h16 : d.size < 16
  · rw [parseLabelHeader_short Flags.init hs h16]
    exact ⟨rfl, rfl⟩
  · rw [parseLabelHeader_user Flags.init hs h16 e0 hb]
    exact ⟨rfl, rfl⟩

/-- Witness of C9: a `Label` record of size 16 with flags byte 0x1F and
selector byte 1, followed by a `FilePass` header. -/
theorem C9_user_defined_label_witness :
    (Record.mk 0x18 0x00 0x10 0x00 [0x1F, 0, 0, 0, 0, 0, 0, 0, 0, 0, 0, 0, 0, 0, 0, 1]).kind
        = OLEXLSRecordId.Label ∧
    (0x1F : Byte).val &&& 0x20 = 0 ∧
    (extractOleFields
        ((Record.mk 0x18 0x00 0x10 0x00 [0x1F, 0, 0, 0, 0, 0, 0, 0, 0, 0, 0, 0, 0, 0, 0, 1]).bytes
          ++ [0x2F, 0x00, 0x00, 0x00]) Flags.init).flags = ⟨false, false, false⟩ ∧
    (extractOleFields
        ((Record.mk 0x18 0x00 0x10 0x00 [0x1F, 0, 0, 0, 0, 0, 0, 0, 0, 0, 0, 0, 0, 0, 0, 1]).bytes
          ++ [0x2F, 0x00, 0x00, 0x00]) Flags.init).status = Status.returned :=
  ⟨by decide, by decide,
    C9_user_defined_label _ _ 0x1F (by decide) (by decide) (by decide)⟩

/-- C10 (the code at failing inputs): the two-byte buffer `2F 00` is shorter
than a record header, yet the loop is entered (offset 0 differs from the end
offset 2), the kind field is loaded from bytes 0 and 1 and `is_encrypted` is
set.  On the one-byte buffer `0A` the load of the kind field reaches offset 1,
and on the three-byte buffer `0A 00 00` the load of the size field reaches
offset 3, both outside the buffer.  Only the empty buffer is left alone. -/
theorem C10_short_buffer_runs :
    extractOleFields [0x2F, 0x00] Flags.init
        = ⟨⟨false, false, true⟩, [0, 1], 0, Status.returned⟩ ∧
      extractOleFields [0x0A] Flags.init = ⟨Flags.init, [0, 1], 0, Status.overrun⟩ ∧
      extractOleFields [0x0A, 0x00, 0x00] Flags.init
        = ⟨Flags.init, [0, 1, 2, 3], 0, Status.overrun⟩ ∧
      extractOleFields [] Flags.init = ⟨Flags.init, [], 0, Status.returned⟩ := by
  decide

/-! ## Further lemmas -/

theorem charToInt_eq_one (b : Byte) : charToInt b = BuiltinNames.AutoOpen ↔ b.val = 1 := by
  unfold charToInt BuiltinNames.AutoOpen
  have := b.isLt
  split <;> omega

theorem charToInt_eq_two (b : Byte) : charToInt b = BuiltinNames.AutoClose ↔ b.val = 2 := by
  unfold charToInt BuiltinNames.AutoClose
  have := b.isLt
  split <;> omega

/-- Bounds of one step of `operator++`. -/
theorem OLERecordIterator.next_bounds {data : List Byte} {it it2 : OLERecordIterator}
    (h : it.next data = some it2) :
    it.m_data + 4 ≤ it2.m_data ∧ it2.m_data ≤ it.m_data + 4 + 65535 := by
  unfold OLERecordIterator.next at h
  cases hsz : it.size data with
  | none => simp [hsz] at h
  | some sz =>
    simp only [hsz, Option.some.injEq] at h
    subst h
    have hb := readU16_lt_65536 hsz
    show it.m_data + 4 ≤ it.m_data + (sizeofHeader + sz) ∧
      it.m_data + (sizeofHeader + sz) ≤ it.m_data + 4 + 65535
    have h4 : sizeofHeader = 4 := rfl
    omega

/-- C11: when the buffer is exactly a sequence of well-formed records none of
which has kind `FilePass` or `Label` (the empty buffer included),
`extractOleFields` started from all-false flags steps over every record,
stops with its iterator at the buffer length, returns, and leaves all three
flags `false`. -/
theorem C11_no_decisive_record (rs : List Record)
    (hrs : ∀ r ∈ rs, r.wellFormed ∧ r.nonDecisive) :
    extractOleFields (encode rs) Flags.init
      = ⟨⟨false, false, false⟩, headerReads 0 rs, (encode rs).length, Status.returned⟩ := by
  have hwalk := scanFrom_records rs [] [] (encode rs) Flags.init (by simp) hrs
  simp only [List.length_nil, Nat.zero_add] at hwalk
  rw [extractOleFields_eq_scanFrom, hwalk, scanFrom_end]
  simp [Run.after, Flags.init]

/-- Witness of C11: an `Eof` record with a two-byte payload and an empty `Formula` record. -/
theorem C11_no_decisive_record_witness :
    (∀ r ∈ [Record.mk 0x0A 0x00 0x02 0x00 [0x01, 0x02], Record.mk 0x06 0x00 0x00 0x00 []],
      r.wellFormed ∧ r.nonDecisive) ∧
    extractOleFields
        (encode [Record.mk 0x0A 0x00 0x02 0x00 [0x01, 0x02], Record.mk 0x06 0x00 0x00 0x00 []])
        Flags.init
      = ⟨⟨false, false, false⟩,
         headerReads 0 [Record.mk 0x0A 0x00 0x02 0x00 [0x01, 0x02],
           Record.mk 0x06 0x00 0x00 0x00 []],
         (encode [Record.mk 0x0A 0x00 0x02 0x00 [0x01, 0x02],
           Record.mk 0x06 0x00 0x00 0x00 []]).length,
         Status.returned⟩ :=
  ⟨by decide, C11_no_decisive_record _ (by decide)⟩

/-- C12 (the code at a failing input): on a `Label` record of size 16 with
flags byte 0x20, selector byte 1 (`AutoOpen`) makes `parseLabelHeader` set
`found_auto_close` and leave `found_auto_open` `false`; selector byte 2
(`AutoClose`) sets `found_auto_close` as well. -/
theorem C12_auto_open_selector_sets_auto_close :
    parseLabelHeader
        [0x18, 0x00, 0x10, 0x00, 0x20, 0, 0, 0, 0, 0, 0, 0, 0, 0, 0, 0, 0, 0, 0, 1] 0 Flags.init
      = ⟨⟨false, true, false⟩, [2, 3, 4, 19], 0, Status.returned⟩ ∧
    parseLabelHeader
        [0x18, 0x00, 0x10, 0x00, 0x20, 0, 0, 0, 0, 0, 0, 0, 0, 0, 0, 0, 0, 0, 0, 2] 0 Flags.init
      = ⟨⟨false, true, false⟩, [2, 3, 4, 19], 0, Status.returned⟩ := by
  decide

/-- What `parseLabelHeader` does to the flags does not depend on the flags. -/
theorem parseLabelHeader_uniform (data : List Byte) (record : Nat) :
    (∀ g, (parseLabelHeader data record g).flags = g) ∨
      (∀ g, (parseLabelHeader data record g).flags = { g with found_auto_close := true }) := by
  unfold parseLabelHeader
  cases readU16 data (record + 2) with
  | none => left; intro g; rfl
  | some size =>
    by_cases h16 : size < 16
    · left; intro g; simp [h16]
    · cases h0 : data[record + sizeofHeader]? with
      | none => left; intro g; simp [h16, h0]
      | some b0 =>
        by_cases hb : b0.val &&& 0x20 ≠ 0
        · cases h15 : data[record + sizeofHeader + 15]? with
          | none => left; intro g; simp [h16, h0, hb, h15]
          | some b15 =>
            by_cases ho : charToInt b15 = BuiltinNames.AutoOpen
            · right; intro g; simp [h16, h0, hb, h15, ho]
            · by_cases hc : charToInt b15 = BuiltinNames.AutoClose
              · right; intro g; simp [h16, h0, hb, h15, ho, hc]
              · left; intro g; simp [h16, h0, hb, h15, ho, hc]
        · left; intro g; simp [h16, h0, hb]

/-- What the loop does to the flags does not depend on the flags: it leaves
them alone, or sets `is_encrypted`, or sets `found_auto_close`. -/
theorem extractLoop_uniform (data : List Byte) :
    ∀ (fuel : Nat) (it : OLERecordIterator),
      (∀ g, (extractLoop data fuel it g).flags = g) ∨
      (∀ g, (extractLoop data fuel it g).flags = { g with is_encrypted := true }) ∨
      (∀ g, (extractLoop data fuel it g).flags = { g with found_auto_close := true }) := by
  intro fuel
  induction fuel with
  | zero => intro it; left; intro g; rfl
  | succ n ih =>
    intro it
    by_cases hne : it.ne (OLEFile.end_ data) = true
    · cases hty : it.type data with
      | none => left; intro g; simp [extractLoop, hne, hty]
      | some ty =>
        by_cases h1 : ty = OLEXLSRecordId.FilePass
        · right; left; intro g; simp [extractLoop, hne, hty, h1]
        · by_cases h2 : ty = OLEXLSRecordId.Label
          · have hk : ¬ OLEXLSRecordId.Label = OLEXLSRecordId.FilePass := by decide
            rcases parseLabelHeader_uniform data it.m_data with h | h
            · left; intro g
              simp [extractLoop, hne, hty, h2, hk, Run.after_flags, h g]
            · right; right; intro g
              simp [extractLoop, hne, hty, h2, hk, Run.after_flags, h g]
          · cases hnx : it.next data with
            | none => left; intro g; simp [extractLoop, hne, hty, h1, h2, hnx]
            | some it2 =>
              rcases ih it2 with h | h | h
              · left; intro g
                simp [extractLoop, hne, hty, h1, h2, hnx, Run.after_flags, h g]
              · right; left; intro g
                simp [extractLoop, hne, hty, h1, h2, hnx, Run.after_flags, h g]
              · right; right; intro g
                simp [extractLoop, hne, hty, h1, h2, hnx, Run.after_flags, h g]
    · left; intro g; simp [extractLoop, hne]

/-- The loads and the status of `parseLabelHeader` do not depend on the flags. -/
theorem parseLabelHeader_indep (data : List Byte) (record : Nat) (f g : Flags) :
    (parseLabelHeader data record g).reads = (parseLabelHeader data record f).reads ∧
      (parseLabelHeader data record g).cursor = (parseLabelHeader data record f).cursor ∧
      (parseLabelHeader data record g).status = (parseLabelHeader data record f).status := by
  unfold parseLabelHeader
  cases readU16 data (record + 2) with
  | none => exact ⟨rfl, rfl, rfl⟩
  | some size =>
    by_cases h16 : size < 16
    · simp [h16]
    · cases h0 : data[record + sizeofHeader]? with
      | none => simp [h16, h0]
      | some b0 =>
        by_cases hb : b0.val &&& 0x20 ≠ 0
        · cases h15 : data[record + sizeofHeader + 15]? with
          | none => simp [h16, h0, hb, h15]
          | some b15 =>
            by_cases ho : charToInt b15 = BuiltinNames.AutoOpen
            · simp [h16, h0, hb, h15, ho]
            · by_cases hc : charToInt b15 = BuiltinNames.AutoClose
              · simp [h16, h0, hb, h15, ho, hc]
              · simp [h16, h0, hb, h15, ho, hc]
        · simp [h16, h0, hb]

/-- The loads, the final iterator and the status of the loop do not depend on the flags. -/
theorem extractLoop_indep (data : List Byte) :
    ∀ (fuel : Nat) (it : OLERecordIterator) (f g : Flags),
      (extractLoop data fuel it g).reads = (extractLoop data fuel it f).reads ∧
      (extractLoop data fuel it g).cursor = (extractLoop data fuel it f).cursor ∧
      (extractLoop data fuel it g).status = (extractLoop data fuel it f).status := by
  intro fuel
  induction fuel with
  | zero => intro it f g; exact ⟨rfl, rfl, rfl⟩
  | succ n ih =>
    intro it f g
    by_cases hne : it.ne (OLEFile.end_ data) = true
    · cases hty : it.type data with
      | none => simp [extractLoop, hne, hty]
      | some ty =>
        by_cases h1 : ty = OLEXLSRecordId.FilePass
        · simp [extractLoop, hne, hty, h1]
        · by_cases h2 : ty = OLEXLSRecordId.Label
          · have hk : ¬ OLEXLSRecordId.Label = OLEXLSRecordId.FilePass := by decide
            obtain ⟨a, b, c⟩ := parseLabelHeader_indep data it.m_data f g
            simp [extractLoop, hne, hty, h2, hk, Run.after, a, b, c]
          · cases hnx : it.next data with
            | none => simp [extractLoop, hne, hty, h1, h2, hnx]
            | some it2 =>
              obtain ⟨a, b, c⟩ := ih it2 f g
              simp [extractLoop, hne, hty, h1, h2, hnx, Run.after, a, b, c]
    · simp [extractLoop, hne]

/-- C13: idempotence.  On the same buffer a second run of `extractOleFields`
gives the result of the first run: started from all-false flags again it is
the same computation, and started from the flags the first run ended with it
ends with the same flags, after the same loads and with the same status. -/
theorem C13_idempotence (data : List Byte) :
    (extractOleFields data Flags.init).flags = (extractOleFields data Flags.init).flags ∧
      extractOleFields data (extractOleFields data Flags.init).flags
        = extractOleFields data Flags.init := by
  refine ⟨rfl, ?_⟩
  obtain ⟨a, b, c⟩ := extractLoop_indep data (data.length + 1) (OLEFile.begin data) Flags.init
    (extractLoop data (data.length + 1) (OLEFile.begin data) Flags.init).flags
  have hf : (extractOleFields data (extractOleFields data Flags.init).flags).flags
      = (extractOleFields data Flags.init).flags := by
    unfold extractOleFields
    rcases extractLoop_uniform data (data.length + 1) (OLEFile.begin data) with h | h | h
    · rw [h, h]
    · rw [h, h]
    · rw [h, h]
  have ext : ∀ r s : Run, r.flags = s.flags → r.reads = s.reads → r.cursor = s.cursor →
      r.status = s.status → r = s := by
    intro r s h1 h2 h3 h4
    cases r; cases s
    simp only at h1 h2 h3 h4
    subst h1 h2 h3 h4
    rfl
  exact ext _ _ hf a b c

/-- With the host flag absent or not `true`, `module_load` returns
`ERROR_SUCCESS` and sets no field. -/
theorem module_load_flag_off (module_data block_data : List Byte)
    (h : module_data.length ≠ 1 ∨ module_data[0]? ≠ some 1) :
    module_load module_data block_data = ⟨some ERROR_SUCCESS, [], Status.returned⟩ := by
  unfold module_load
  rw [if_pos h]

/-- With the host flag set and an extraction that stays inside the block,
`module_load` returns `ERROR_SUCCESS` and sets the three fields, in the order
of the source, to the flags of one run of `extractOleFields` from all-false
flags. -/
theorem module_load_flag_on (block_data : List Byte)
    (h : (extractOleFields block_data Flags.init).status = Status.returned) :
    module_load [1] block_data
      = ⟨some ERROR_SUCCESS,
         [("is_encrypted", boolToInt (extractOleFields block_data Flags.init).flags.is_encrypted),
          ("auto_open", boolToInt (extractOleFields block_data Flags.init).flags.found_auto_open),
          ("auto_close",
            boolToInt (extractOleFields block_data Flags.init).flags.found_auto_close)],
         Status.returned⟩ := by
  unfold module_load
  have hc : ¬ (([1] : List Byte).length ≠ 1 ∨ ([1] : List Byte)[0]? ≠ some 1) := by decide
  rw [if_neg hc]
  simp only [h]

/-- C14 (the code at a failing input): with the host flag set and the one-byte
block `0A`, the extraction `module_load` starts loads the kind field from
offsets 0 and 1 of a one-byte block; no return value and no field are defined
from there on. -/
theorem C14_module_load_overrun :
    module_load [1] [0x0A] = ⟨none, [], Status.overrun⟩ ∧
      extractOleFields [0x0A] Flags.init = ⟨Flags.init, [0, 1], 0, Status.overrun⟩ := by
  decide

/-- C15: at an offset `o` where the four header bytes lie in the buffer, the
kind is the little-endian value of bytes `o` and `o + 1`, the payload size is
the little-endian value of bytes `o + 2` and `o + 3`, and `operator++` moves
the iterator to `o + 4 + size`. -/
theorem C15_header_decoding (data : List Byte) (o : Nat) (k0 k1 s0 s1 : Byte)
    (h0 : data[o]? = some k0) (h1 : data[o + 1]? = some k1)
    (h2 : data[o + 2]? = some s0) (h3 : data[o + 3]? = some s1) :
    OLERecordIterator.type data ⟨o⟩ = some (k0.val + 256 * k1.val) ∧
      OLERecordIterator.size data ⟨o⟩ = some (s0.val + 256 * s1.val) ∧
      OLERecordIterator.next data ⟨o⟩ = some ⟨o + 4 + (s0.val + 256 * s1.val)⟩ := by
  have ht : OLERecordIterator.type data ⟨o⟩ = some (k0.val + 256 * k1.val) :=
    readU16_eq h0 h1
  have hs : OLERecordIterator.size data ⟨o⟩ = some (s0.val + 256 * s1.val) :=
    readU16_eq h2 h3
  refine ⟨ht, hs, ?_⟩
  unfold OLERecordIterator.next
  rw [hs]
  simp only [sizeofHeader, Nat.add_assoc]

/-- Witness of C15: the header `85 00 02 01` at offset 1 (kind 0x0085, size 0x0102). -/
theorem C15_header_decoding_witness :
    OLERecordIterator.type [0xFF, 0x85, 0x00, 0x02, 0x01] ⟨1⟩
        = some ((0x85 : Byte).val + 256 * (0x00 : Byte).val) ∧
      OLERecordIterator.size [0xFF, 0x85, 0x00, 0x02, 0x01] ⟨1⟩
        = some ((0x02 : Byte).val + 256 * (0x01 : Byte).val) ∧
      OLERecordIterator.next [0xFF, 0x85, 0x00, 0x02, 0x01] ⟨1⟩
        = some ⟨1 + 4 + ((0x02 : Byte).val + 256 * (0x01 : Byte).val)⟩ :=
  C15_header_decoding [0xFF, 0x85, 0x00, 0x02, 0x01] 1 0x85 0x00 0x02 0x01 rfl rfl rfl rfl

/-- C16 (the code at failing inputs): on the four-byte buffer `0A 00 01 00` the
iterator moves from 0 to 5, past the buffer length 4; the loop does not stop
there but loads a second header, at offsets 5 and 6, outside the buffer.  On
the two-byte buffer `2F 00` one record is examined although `2 / 4 = 0`. -/
theorem C16_walk_continues_past_end :
    extractOleFields [0x0A, 0x00, 0x01, 0x00] Flags.init
        = ⟨Flags.init, [0, 1, 2, 3, 5, 6], 5, Status.overrun⟩ ∧
      OLERecordIterator.next [0x0A, 0x00, 0x01, 0x00] (OLEFile.begin [0x0A, 0x00, 0x01, 0x00])
        = some ⟨5⟩ ∧
      OLERecordIterator.ne ⟨5⟩ (OLEFile.end_ [0x0A, 0x00, 0x01, 0x00]) = true ∧
      (extractOleFields [0x2F, 0x00] Flags.init).reads = [0, 1] := by
  decide

/-- C17: on a `Label` record with `size >= 16` and bit 0x20 set in payload
byte 0, a payload byte 15 that is neither 1 nor 2 makes `parseLabelHeader`
return with the flags unchanged, and `extractOleFields` on a buffer that
starts with such a record returns with all three flags `false`. -/
theorem C17_other_selector (d : Record) (rest : List Byte) (b0 b15 : Byte) (f : Flags)
    (hk : d.kind = OLEXLSRecordId.Label) (h16 : 16 ≤ d.size)
    (h0 : d.payload[0]? = some b0) (hb : b0.val &&& 0x20 ≠ 0)
    (h15 : d.payload[15]? = some b15) (hn1 : b15.val ≠ 1) (hn2 : b15.val ≠ 2) :
    parseLabelHeader (d.bytes ++ rest) 0 f = ⟨f, [2, 3, 4, 19], 0, Status.returned⟩ ∧
      extractOleFields (d.bytes ++ rest) Flags.init
        = ⟨⟨false, false, false⟩, [0, 1, 2, 3, 4, 19], 0, Status.returned⟩ := by
  have hlen : 15 < d.payload.length := by
    rcases List.getElem?_eq_some_iff.mp h15 with ⟨h, _⟩
    exact h
  have hty : readU16 (d.bytes ++ rest) 0 = some OLEXLSRecordId.Label := by
    have := readU16_record_kind [] d rest
    rw [hk] at this
    simpa using this
  have hs : readU16 (d.bytes ++ rest) (0 + 2) = some d.size := by
    have := readU16_record_size [] d rest
    simpa using this
  have e0 : (d.bytes ++ rest)[0 + 4]? = some b0 := by
    have := getElem?_record_payload [] d rest 0 (by omega)
    rw [h0] at this
    simpa using this
  have e15 : (d.bytes ++ rest)[0 + 4 + 15]? = some b15 := by
    have := getElem?_record_payload [] d rest 15 hlen
    rw [h15] at this
    simpa using this
  have hsel : ¬ (charToInt b15 = BuiltinNames.AutoOpen ∨ charToInt b15 = BuiltinNames.AutoClose) := by
    rw [charToInt_eq_one, charToInt_eq_two]
    omega
  have hp : ∀ g, parseLabelHeader (d.bytes ++ rest) 0 g
      = ⟨g, [2, 3, 4, 19], 0, Status.returned⟩ := by
    intro g
    rw [parseLabelHeader_builtin g hs (by omega) e0 hb e15, if_neg hsel]
  refine ⟨hp f, ?_⟩
  rw [extractOleFields_eq_scanFrom, scanFrom_label Flags.init hty, hp]
  rfl

/-- Witness of C17: a `Label` record of size 16 with flags byte 0x20 and
selector byte 0x0A (`Autoactivate`), followed by a `FilePass` header. -/
theorem C17_other_selector_witness :
    parseLabelHeader
        ((Record.mk 0x18 0x00 0x10 0x00
            [0x20, 0, 0, 0, 0, 0, 0, 0, 0, 0, 0, 0, 0, 0, 0, 0x0A]).bytes
          ++ [0x2F, 0x00, 0x00, 0x00]) 0 Flags.init
        = ⟨Flags.init, [2, 3, 4, 19], 0, Status.returned⟩ ∧
      extractOleFields
        ((Record.mk 0x18 0x00 0x10 0x00
            [0x20, 0, 0, 0, 0, 0, 0, 0, 0, 0, 0, 0, 0, 0, 0, 0x0A]).bytes
          ++ [0x2F, 0x00, 0x00, 0x00]) Flags.init
        = ⟨⟨false, false, false⟩, [0, 1, 2, 3, 4, 19], 0, Status.returned⟩ :=
  C17_other_selector
    (Record.mk 0x18 0x00 0x10 0x00 [0x20, 0, 0, 0, 0, 0, 0, 0, 0, 0, 0, 0, 0, 0, 0, 0x0A])
    [0x2F, 0x00, 0x00, 0x00] 0x20 0x0A Flags.init
    (by decide) (by decide) (by decide) (by decide) (by decide) (by decide) (by decide)

/-- C19: encryption detection looks at the record kind only.  On every buffer
of at least four bytes that starts with `2F 00`, `extractOleFields` started
from all-false flags returns with `is_encrypted = true` and the other two
flags `false`, having loaded bytes 0 and 1 only, whatever the size field in
bytes 2 and 3 declares. -/
theorem C19_filepass_kind_only (data : List Byte)
    (h0 : data[0]? = some 0x2F) (h1 : data[1]? = some 0x00) (hlen : 4 ≤ data.length) :
    extractOleFields data Flags.init
      = ⟨⟨false, false, true⟩, [0, 1], 0, Status.returned⟩ := by
  have _ := hlen
  have hty : readU16 data 0 = some OLEXLSRecordId.FilePass := by
    have := readU16_eq h0 h1
    simpa [OLEXLSRecordId.FilePass] using this
  rw [extractOleFields_eq_scanFrom, scanFrom_filepass Flags.init hty]
  rfl

/-- Witness of C19: a `FilePass` header that declares 0xFFFF payload bytes in a four-byte buffer. -/
theorem C19_filepass_kind_only_witness :
    extractOleFields [0x2F, 0x00, 0xFF, 0xFF] Flags.init
      = ⟨⟨false, false, true⟩, [0, 1], 0, Status.returned⟩ :=
  C19_filepass_kind_only [0x2F, 0x00, 0xFF, 0xFF] rfl rfl (by decide)

/-- When the declared payload of a `Label` record lies inside the buffer,
`parseLabelHeader` returns. -/
theorem parseLabelHeader_returned {data : List Byte} {o sz : Nat} (f : Flags)
    (hs : readU16 data (o + 2) = some sz) (hfit : o + 4 + sz ≤ data.length) :
    (parseLabelHeader data o f).status = Status.returned := by
  unfold parseLabelHeader
  rw [hs]
  simp only [sizeofHeader]
  by_cases h16 : sz < 16
  · simp [h16]
  · cases h0 : data[o + 4]? with
    | none =>
      have := List.getElem?_eq_none_iff.mp h0
      omega
    | some b0 =>
      by_cases hb : b0.val &&& 0x20 ≠ 0
      · cases h15 : data[o + 4 + 15]? with
        | none =>
          have := List.getElem?_eq_none_iff.mp h15
          omega
        | some b15 =>
          by_cases ho : charToInt b15 = BuiltinNames.AutoOpen
          · simp [h16, h0, hb, h15, ho]
          · by_cases hc : charToInt b15 = BuiltinNames.AutoClose
            · simp [h16, h0, hb, h15, ho, hc]
            · simp [h16, h0, hb, h15, ho, hc]
      · simp [h16, h0, hb]

/-- On a stream of well-formed records of any kinds the loop returns and all its loads are inside
the buffer. -/
theorem scanFrom_wellFormed (rs : List Record) :
    ∀ (pre data : List Byte) (f : Flags),
      data = pre ++ encode rs → (∀ r ∈ rs, r.wellFormed) →
      (scanFrom data pre.length f).status = Status.returned ∧
        ∀ i ∈ (scanFrom data pre.length f).reads, i < data.length := by
  induction rs with
  | nil =>
    intro pre data f hd _
    have hlen : pre.length = data.length := by rw [hd]; simp [encode]
    rw [hlen, scanFrom_end]
    exact ⟨rfl, by intro i hi; simp at hi⟩
  | cons r rs ih =>
    intro pre data f hd hall
    have hr : r.payload.length = r.size := hall r (List.mem_cons_self _ _)
    have hrest : ∀ x ∈ rs, x.wellFormed := fun x hx => hall x (List.mem_cons_of_mem _ hx)
    have hd1 : data = pre ++ (r.bytes ++ encode rs) := by rw [hd]; simp [encode]
    have hk : readU16 data pre.length = some r.kind := by
      rw [hd1]; exact readU16_record_kind pre r _
    have hs : readU16 data (pre.length + 2) = some r.size := by
      rw [hd1]; exact readU16_record_size pre r _
    have hdl : data.length = pre.length + (4 + r.size) + (encode rs).length := by
      rw [hd1, List.length_append, List.length_append, Record.bytes_length, hr]
      omega
    by_cases h1 : r.kind = OLEXLSRecordId.FilePass
    · rw [h1] at hk
      rw [scanFrom_filepass f hk]
      refine ⟨rfl, ?_⟩
      intro i hi
      simp at hi
      omega
    · by_cases h2 : r.kind = OLEXLSRecordId.Label
      · rw [h2] at hk
        rw [scanFrom_label f hk, Run.after_status, Run.after_reads]
        refine ⟨parseLabelHeader_returned f hs (by omega), ?_⟩
        intro i hi
        rw [List.mem_append] at hi
        rcases hi with hi | hi
        · simp at hi
          omega
        · have := parseLabelHeader_reads_lt f hs i hi
          omega
      · have hlen : (pre ++ r.bytes).length = pre.length + (4 + r.size) := by
          rw [List.length_append, Record.bytes_length, hr]
        have hd2 : data = (pre ++ r.bytes) ++ encode rs := by rw [hd1]; simp
        have hih := ih (pre ++ r.bytes) data f hd2 hrest
        rw [hlen] at hih
        rw [scanFrom_skip f hk h1 h2 hs, Run.after_status, Run.after_reads]
        refine ⟨hih.1, ?_⟩
        intro i hi
        rw [List.mem_append] at hi
        rcases hi with hi | hi
        · simp at hi
          omega
        · exact hih.2 i hi

/-- C18: in-bounds loads on well-formed streams.  When the buffer is exactly a
sequence of records, of any kinds, each with its four header bytes and its
full declared payload, every byte `extractOleFields` loads (the loads of
`parseLabelHeader` on the first `Label` record included) lies at an offset
below the buffer length, and the run returns: the out-of-bounds branch is not
taken. -/
theorem C18_in_bounds_on_well_formed (rs : List Record) (f : Flags)
    (hwf : ∀ r ∈ rs, r.wellFormed) :
    (∀ i ∈ (extractOleFields (encode rs) f).reads, i < (encode rs).length) ∧
      (extractOleFields (encode rs) f).status = Status.returned := by
  have h := scanFrom_wellFormed rs [] (encode rs) f (by simp) hwf
  simp only [List.length_nil] at h
  rw [extractOleFields_eq_scanFrom]
  exact ⟨h.2, h.1⟩

/-- Witness of C18: an `Eof` record with a one-byte payload, then a `Label`
record of size 16 with the `AutoClose` selector, then a `FilePass` record. -/
theorem C18_in_bounds_on_well_formed_witness :
    (∀ r ∈ [Record.mk 0x0A 0x00 0x01 0x00 [0xFF],
        Record.mk 0x18 0x00 0x10 0x00 [0x20, 0, 0, 0, 0, 0, 0, 0, 0, 0, 0, 0, 0, 0, 0, 2],
        Record.mk 0x2F 0x00 0x00 0x00 []], r.wellFormed) ∧
    ((∀ i ∈ (extractOleFields (encode [Record.mk 0x0A 0x00 0x01 0x00 [0xFF],
        Record.mk 0x18 0x00 0x10 0x00 [0x20, 0, 0, 0, 0, 0, 0, 0, 0, 0, 0, 0, 0, 0, 0, 2],
        Record.mk 0x2F 0x00 0x00 0x00 []]) Flags.init).reads,
        i < (encode [Record.mk 0x0A 0x00 0x01 0x00 [0xFF],
          Record.mk 0x18 0x00 0x10 0x00 [0x20, 0, 0, 0, 0, 0, 0, 0, 0, 0, 0, 0, 0, 0, 0, 2],
          Record.mk 0x2F 0x00 0x00 0x00 []]).length) ∧
      (extractOleFields (encode [Record.mk 0x0A 0x00 0x01 0x00 [0xFF],
        Record.mk 0x18 0x00 0x10 0x00 [0x20, 0, 0, 0, 0, 0, 0, 0, 0, 0, 0, 0, 0, 0, 0, 2],
        Record.mk 0x2F 0x00 0x00 0x00 []]) Flags.init).status = Status.returned) :=
  ⟨by decide, C18_in_bounds_on_well_formed _ _ (by decide)⟩

end Ole
